import Mathlib

/-!
Shallow embedding of the data-preprocessing and batching pipeline of the
SentimentRNN notebook (`Sentiment_RNN.ipynb`), together with proofs of the
specified properties of that pipeline.

Python lists become Lean `List`s, dicts become association lists, NumPy
integer rows become `List Nat`, and the generator `get_batches` becomes a
construction step (building the generator object runs none of the body)
plus an explicit run function returning `Except` (Python raises
`ZeroDivisionError` from `len(x)//batch_size` when the body first runs).
-/

namespace SentimentRNN

/-- Label encoding, the body of
`labels = np.array([1 if each == 'positive' else 0 for each in labels])`. -/
def labelEncode (each : String) : Nat :=
  if each = "positive" then 1 else 0

/-- `labels = labels.split('\n')` followed by the comprehension above.
The raw labels file is modelled after the split, as its list of
newline-separated fields; a trailing newline in the file contributes a
final `""` field. -/
def labelsArray (labelLines : List String) : List Nat :=
  labelLines.map labelEncode

/-- Iteration order of `Counter(words)`: a Python dict iterates its keys in
insertion order, so `Counter(words)` iterates the distinct words in order
of first occurrence.  `distinctAux seen ws` collects the words of `ws` not
already in `seen`, in order of first occurrence. -/
def distinctAux : List String → List String → List String
  | _, [] => []
  | seen, w :: ws =>
    if seen.contains w then distinctAux seen ws
    else w :: distinctAux (w :: seen) ws

/-- The distinct words of the flat token stream, in first-occurrence order
(the keys of `counts = Counter(words)`). -/
def distinctTokens (words : List String) : List String :=
  distinctAux [] words

/-- `counts[t]` for `counts = Counter(words)`: the number of occurrences of
`t` in the flat token stream. -/
def counts (words : List String) (t : String) : Nat :=
  words.count t

/-- The comparison induced by `key=counts.get, reverse=True`: token `a`
may come before token `b` exactly when `counts b ≤ counts a`. -/
def countLe (words : List String) (a b : String) : Bool :=
  decide (counts words b ≤ counts words a)

/-- `vocab = sorted(counts, key=counts.get, reverse=True)`: the distinct
tokens sorted by descending count.  Python's sort is stable and
`reverse=True` keeps equal-count tokens in their original (insertion)
order, which is exactly the behaviour of `List.mergeSort` with the
relation `counts b ≤ counts a`. -/
def vocab (words : List String) : List String :=
  (distinctTokens words).mergeSort (countLe words)

/-- `enumerate` with the id `ii+1`:
`{word: ii+1 for ii, word in enumerate(vocab)}` builds the pairs
`(word, ii+1)` with `ii` counting up from 0. -/
def assignIds : Nat → List String → List (String × Nat)
  | _, [] => []
  | ii, word :: rest => (word, ii + 1) :: assignIds (ii + 1) rest

/-- `vocab_to_int = {word: ii+1 for ii, word in enumerate(vocab)}`,
as an association list (the keys of `vocab` are distinct, so the dict and
the association list agree). -/
def vocab_to_int (words : List String) : List (String × Nat) :=
  assignIds 0 (vocab words)

/-- One step of the encoding loop:
`[vocab_to_int[word] for word in each.split()]`.  A Python dict subscript
raises `KeyError` on a missing key, so the comprehension is fallible:
`none` models the raised `KeyError`. -/
def encodeReview (vti : List (String × Nat)) (each : List String) :
    Option (List Nat) :=
  each.mapM (fun word => vti.lookup word)

/-- `reviews_ints = [each for each in reviews_ints if len(each)!=0]`:
the empty-review filter.  Note that the notebook applies this to
`reviews_ints` only; no corresponding operation is applied to `labels`. -/
def filterEmpty (reviews_ints : List (List Nat)) : List (List Nat) :=
  reviews_ints.filter (fun each => each.length != 0)

/-- `seq_len = 200`, the hard-coded target row length. -/
def seq_len : Nat := 200

/-- One row of the framing loop.  The row `features[i]` starts as zeros of
length `seq_len`; `features[i] = each[:200]` writes the first 200 ids, and
`features[i, diff:] = each` with `diff = 200 - len(each)` leaves `diff`
zeros in front of the ids. -/
def frameRow (each : List Nat) : List Nat :=
  if seq_len ≤ each.length then each.take seq_len
  else List.replicate (seq_len - each.length) 0 ++ each

/-- The whole framing loop `for i, each in enumerate(reviews_ints): ...`
over the zero-initialised `features` array. -/
def features (reviews_ints : List (List Nat)) : List (List Nat) :=
  reviews_ints.map frameRow

/-- `split_idx = int(len(features)*0.8)`.  The double `0.8` differs from
4/5 by less than 2^-53 and for every dataset size below 2^50 the float
product truncates to `⌊4n/5⌋`, so the embedding uses the exact rational. -/
def split_idx (n : Nat) : Nat := 4 * n / 5

/-- `test_idx = int(len(val_x)*0.5)`; `0.5` is exact in binary, so this is
`⌊m/2⌋` exactly. -/
def test_idx (m : Nat) : Nat := m / 2

/-- `train_x = features[:split_idx]`. -/
def train_x {α : Type} (features : List α) : List α :=
  features.take (split_idx features.length)

/-- `val_x = features[split_idx:]`, the first binding of `val_x` (the
remainder that is then re-split into validation and test). -/
def val_rest {α : Type} (features : List α) : List α :=
  features.drop (split_idx features.length)

/-- `val_x = val_x[:test_idx]`, the second binding of `val_x`. -/
def val_x {α : Type} (features : List α) : List α :=
  (val_rest features).take (test_idx (val_rest features).length)

/-- `test_x = val_x[test_idx:]`. -/
def test_x {α : Type} (features : List α) : List α :=
  (val_rest features).drop (test_idx (val_rest features).length)

/-- A generator object produced by calling `get_batches(x, y, batch_size)`.
Calling a Python generator function executes none of its body; it only
captures the arguments. -/
structure Gen (α β : Type) where
  x : List α
  y : List β
  batch_size : Nat

/-- `def get_batches(x, y, batch_size=100)`: constructing the generator.
No validation and no computation happens here. -/
def get_batches {α β : Type} (x : List α) (y : List β)
    (batch_size : Nat := 100) : Gen α β :=
  ⟨x, y, batch_size⟩

/-- The body of `get_batches` for `batch_size > 0`:
`n_batches = len(x)//batch_size`, truncation of `x` and `y` to
`n_batches*batch_size` rows, then the loop
`for ii in range(0, len(x), batch_size)` yielding the slices
`x[ii:ii+batch_size], y[ii:ii+batch_size]`.  Over the truncated `x` the
loop counter takes the values `0, b, 2b, ...`, i.e. `ii = i*b` for
`i < n_batches`. -/
def pyBatches {α β : Type} (x : List α) (y : List β) (batch_size : Nat) :
    List (List α × List β) :=
  (List.range (x.length / batch_size)).map (fun i =>
    (((x.take (x.length / batch_size * batch_size)).drop
        (i * batch_size)).take batch_size,
     ((y.take (x.length / batch_size * batch_size)).drop
        (i * batch_size)).take batch_size))

/-- Running the generator body to exhaustion.  The first statement
executed is `n_batches = len(x)//batch_size`, which raises
`ZeroDivisionError` when `batch_size == 0`; this happens at the first
`next()`, not when the generator is constructed. -/
def runBatches {α β : Type} (g : Gen α β) :
    Except String (List (List α × List β)) :=
  if g.batch_size = 0 then Except.error "ZeroDivisionError"
  else Except.ok (pyBatches g.x g.y g.batch_size)

theorem contains_true_of_mem {l : List String} {a : String} (h : a ∈ l) :
    l.contains a = true := by
  simpa using h

theorem mem_of_contains_true {l : List String} {a : String}
    (h : l.contains a = true) : a ∈ l := by
  simpa using h

theorem mem_distinctAux {t : String} :
    ∀ (ws seen : List String), t ∈ distinctAux seen ws → t ∈ ws ∧ t ∉ seen := by
  intro ws
  induction ws with
  | nil => intro seen h; simp [distinctAux] at h
  | cons w ws ih =>
    intro seen h
    by_cases hc : seen.contains w
    · rw [distinctAux, if_pos hc] at h
      obtain ⟨h1, h2⟩ := ih seen h
      exact ⟨List.mem_cons_of_mem _ h1, h2⟩
    · rw [distinctAux, if_neg hc] at h
      rcases List.mem_cons.mp h with h | h
      · subst h
        exact ⟨List.mem_cons_self _ _, fun hmem => hc (contains_true_of_mem hmem)⟩
      · obtain ⟨h1, h2⟩ := ih (w :: seen) h
        exact ⟨List.mem_cons_of_mem _ h1, fun hs => h2 (List.mem_cons_of_mem _ hs)⟩

theorem mem_distinctAux_of_mem {t : String} :
    ∀ (ws seen : List String), t ∈ ws → t ∉ seen → t ∈ distinctAux seen ws := by
  intro ws
  induction ws with
  | nil => intro seen h _; simp at h
  | cons w ws ih =>
    intro seen hmem hseen
    by_cases hc : seen.contains w
    · rw [distinctAux, if_pos hc]
      rcases List.mem_cons.mp hmem with rfl | h
      · exact absurd (mem_of_contains_true hc) hseen
      · exact ih seen h hseen
    · rw [distinctAux, if_neg hc]
      by_cases ht : t = w
      · subst ht; exact List.mem_cons_self _ _
      · rcases List.mem_cons.mp hmem with rfl | h
        · exact absurd rfl ht
        · refine List.mem_cons_of_mem _ (ih (w :: seen) h ?_)
          intro hws
          rcases List.mem_cons.mp hws with h' | h'
          · exact ht h'
          · exact hseen h'

theorem nodup_distinctAux : ∀ (ws seen : List String), (distinctAux seen ws).Nodup := by
  intro ws
  induction ws with
  | nil => intro seen; simp [distinctAux]
  | cons w ws ih =>
    intro seen
    by_cases hc : seen.contains w
    · rw [distinctAux, if_pos hc]; exact ih seen
    · rw [distinctAux, if_neg hc]
      refine List.nodup_cons.mpr ⟨?_, ih (w :: seen)⟩
      intro hmem
      exact (mem_distinctAux ws (w :: seen) hmem).2 (List.mem_cons_self _ _)

theorem mem_distinctTokens {t : String} {words : List String} :
    t ∈ distinctTokens words ↔ t ∈ words := by
  constructor
  · intro h; exact (mem_distinctAux words [] h).1
  · intro h; exact mem_distinctAux_of_mem words [] h (by simp)

theorem nodup_distinctTokens (words : List String) :
    (distinctTokens words).Nodup :=
  nodup_distinctAux words []

theorem map_fst_assignIds : ∀ (l : List String) (i : Nat),
    (assignIds i l).map Prod.fst = l := by
  intro l
  induction l with
  | nil => intro i; rfl
  | cons a tl ih => intro i; simp [assignIds, ih (i + 1)]

theorem map_snd_assignIds : ∀ (l : List String) (i : Nat),
    (assignIds i l).map Prod.snd = List.range' (i + 1) l.length := by
  intro l
  induction l with
  | nil => intro i; rfl
  | cons a tl ih =>
    intro i
    show (a, i + 1).snd :: (assignIds (i + 1) tl).map Prod.snd =
      (i + 1) :: List.range' (i + 2) tl.length
    rw [ih (i + 1)]

theorem lookup_assignIds {t : String} : ∀ (l : List String) (i : Nat), t ∈ l →
    (assignIds i l).lookup t = some (i + List.indexOf t l + 1) := by
  intro l
  induction l with
  | nil => intro i h; simp at h
  | cons a tl ih =>
    intro i h
    by_cases ht : t = a
    · have hb : (t == a) = true := beq_iff_eq.mpr ht
      subst ht
      simp [assignIds, List.lookup, hb, List.indexOf_cons_self]
    · have hb : (t == a) = false := beq_eq_false_iff_ne.mpr ht
      have hmem : t ∈ tl := by
        rcases List.mem_cons.mp h with h' | h'
        · exact absurd h' ht
        · exact h'
      rw [assignIds]
      show List.lookup t ((a, i + 1) :: assignIds (i + 1) tl) = _
      rw [List.lookup, hb, ih (i + 1) hmem, List.indexOf_cons_ne _ (Ne.symm ht)]
      show some (i + 1 + List.indexOf t tl + 1) =
        some (i + (List.indexOf t tl).succ + 1)
      congr 1
      omega

theorem flatten_batch_slices {α : Type} (b : Nat) : ∀ (k : Nat) (l : List α),
    ((List.range k).map (fun i => (l.drop (i * b)).take b)).flatten =
      l.take (k * b) := by
  intro k
  induction k with
  | zero => intro l; simp
  | succ k ih =>
    intro l
    rw [List.range_succ, List.map_append, List.flatten_append]
    simp only [List.map_cons, List.map_nil, List.flatten_cons, List.flatten_nil,
      List.append_nil]
    rw [ih, Nat.succ_mul, List.take_add]

theorem vocab_perm (words : List String) :
    (vocab words).Perm (distinctTokens words) :=
  List.mergeSort_perm _ _

theorem vocab_sorted (words : List String) :
    List.Pairwise (fun a b => counts words b ≤ counts words a) (vocab words) := by
  have htrans : ∀ a b c : String, countLe words a b = true →
      countLe words b c = true → countLe words a c = true := by
    intro a b c hab hbc
    simp only [countLe, decide_eq_true_eq] at hab hbc ⊢
    exact le_trans hbc hab
  have htotal : ∀ a b : String, (countLe words a b || countLe words b a) = true := by
    intro a b
    rcases Nat.le_total (counts words b) (counts words a) with h | h <;>
      simp [countLe, h]
  have h := List.sorted_mergeSort htrans htotal (distinctTokens words)
  exact h.imp (fun hab => by simpa [countLe] using hab)

theorem frameRow_length (each : List Nat) : (frameRow each).length = seq_len := by
  by_cases h : seq_len ≤ each.length
  · rw [frameRow, if_pos h, List.length_take]
    omega
  · rw [frameRow, if_neg h, List.length_append, List.length_replicate]
    omega

example : labelEncode "positive" = 1 := by decide
example : labelsArray ["positive", "negative", ""] = [1, 0, 0] := by decide
example : distinctTokens ["b", "a", "b"] = ["b", "a"] := by decide
example : filterEmpty [[1], [], [2, 3]] = [[1], [2, 3]] := by decide
example :
    runBatches (get_batches [10, 20, 30, 40, 50, 60, 70] [1, 1, 1, 0, 0, 0, 1] 3)
      = Except.ok [([10, 20, 30], [1, 1, 1]), ([40, 50, 60], [0, 0, 0])] := rfl

/-- Claim C1, evidence of the divergence: at a corpus whose second review
encodes to zero tokens (the situation the notebook itself reports as
"Zero-length reviews: 1", produced by the trailing newline of the reviews
file, whose counterpart in the labels file is a final empty field), the
filter `reviews_ints = [each for each in reviews_ints if len(each)!=0]`
drops the empty review while no operation in the notebook removes the
corresponding label, so the surviving review count and the label count
differ. -/
theorem filter_drops_review_but_keeps_label :
    (filterEmpty [[1], []]).length = 1 ∧
    (labelsArray ["positive", ""]).length = 2 ∧
    (filterEmpty [[1], []]).length ≠ (labelsArray ["positive", ""]).length := by
  decide

/-- Claim C2: every framed row has length exactly `seq_len = 200`; a review
with at least 200 ids is cut to its first 200 ids, and a shorter review is
left-padded with zeros so its ids occupy the rightmost entries, in order. -/
theorem framer_row_spec (reviews_ints : List (List Nat)) (each : List Nat)
    (h : each ∈ reviews_ints) :
    (features reviews_ints).map List.length =
      List.replicate reviews_ints.length seq_len ∧
    frameRow each ∈ features reviews_ints ∧
    (seq_len ≤ each.length → frameRow each = each.take seq_len) ∧
    (each.length < seq_len →
      frameRow each = List.replicate (seq_len - each.length) 0 ++ each) := by
  refine ⟨?_, List.mem_map_of_mem _ h, ?_, ?_⟩
  · show (reviews_ints.map frameRow).map List.length = _
    rw [List.map_map]
    have hc : (List.length ∘ frameRow) = fun (_ : List Nat) => seq_len :=
      funext fun r => frameRow_length r
    rw [hc, List.map_const']
  · intro hge
    rw [frameRow, if_pos hge]
  · intro hlt
    rw [frameRow, if_neg (by omega)]

/-- Witness for `framer_row_spec`: a review of 250 ids framed at length 200
keeps exactly its first 200 ids. -/
theorem framer_row_spec_witness :
    (frameRow (List.replicate 250 7)).length = seq_len ∧
    frameRow (List.replicate 250 7) = (List.replicate 250 7).take 200 := by
  have h := framer_row_spec [List.replicate 250 7] (List.replicate 250 7)
    (List.mem_cons_self _ _)
  constructor
  · exact frameRow_length _
  · exact h.2.2.1 (by rw [List.length_replicate, seq_len]; omega)

/-- Claim C4: the 0.8 splitter cuts the input into three contiguous
order-preserving slices — their concatenation is the original list — with
the documented cut formulas, the lengths summing exactly to the input
length and the flooring remainder absorbed into the test slice. -/
theorem split_partition_exact {α : Type} (fs : List α) :
    train_x fs ++ val_x fs ++ test_x fs = fs ∧
    (train_x fs).length = 4 * fs.length / 5 ∧
    (val_x fs).length = (fs.length - 4 * fs.length / 5) / 2 ∧
    (test_x fs).length =
      fs.length - 4 * fs.length / 5 - (fs.length - 4 * fs.length / 5) / 2 ∧
    (train_x fs).length + (val_x fs).length + (test_x fs).length = fs.length ∧
    (val_x fs).length ≤ (test_x fs).length := by
  have hrest : (val_rest fs).length = fs.length - 4 * fs.length / 5 := by
    rw [val_rest, List.length_drop, split_idx]
  have h1 : (train_x fs).length = 4 * fs.length / 5 := by
    rw [train_x, List.length_take, split_idx]
    omega
  have h2 : (val_x fs).length = (fs.length - 4 * fs.length / 5) / 2 := by
    rw [val_x, List.length_take, test_idx, hrest]
    omega
  have h3 : (test_x fs).length =
      fs.length - 4 * fs.length / 5 - (fs.length - 4 * fs.length / 5) / 2 := by
    rw [test_x, List.length_drop, test_idx, hrest]
  refine ⟨?_, h1, h2, h3, by omega, by omega⟩
  rw [List.append_assoc, val_x, test_x, List.take_append_drop, val_rest,
    train_x, List.take_append_drop]

/-- Claim C3: for a positive batch size and a label vector parallel to the
features, the batch iterator yields exactly `⌊n/b⌋` batches, every batch
has exactly `b` feature rows and `b` label rows, and the rows yielded are
precisely the first `⌊n/b⌋*b` input rows (so their total count is
`⌊n/b⌋*b` and every later row is never yielded). -/
theorem get_batches_complete {α β : Type} (x : List α) (y : List β) (b : Nat)
    (hb : 0 < b) (hy : y.length = x.length) :
    runBatches (get_batches x y b) = Except.ok (pyBatches x y b) ∧
    (pyBatches x y b).length = x.length / b ∧
    (pyBatches x y b).map (fun p => p.1.length) =
      List.replicate (x.length / b) b ∧
    (pyBatches x y b).map (fun p => p.2.length) =
      List.replicate (x.length / b) b ∧
    ((pyBatches x y b).map Prod.fst).flatten =
      x.take (x.length / b * b) ∧
    (((pyBatches x y b).map Prod.fst).flatten).length = x.length / b * b := by
  have hmul : x.length / b * b ≤ x.length := Nat.div_mul_le_self _ _
  have hxlen : (x.take (x.length / b * b)).length = x.length / b * b := by
    rw [List.length_take]
    omega
  have hylen : (y.take (x.length / b * b)).length = x.length / b * b := by
    rw [List.length_take, hy]
    omega
  have hslice : ∀ (i : Nat), i < x.length / b →
      i * b + b ≤ x.length / b * b := by
    intro i hi
    have h := Nat.mul_le_mul_right b (Nat.succ_le_of_lt hi)
    rw [Nat.succ_mul] at h
    exact h
  refine ⟨?_, ?_, ?_, ?_, ?_, ?_⟩
  · have hb' : ¬ (b = 0) := Nat.pos_iff_ne_zero.mp hb
    show (if b = 0 then Except.error "ZeroDivisionError"
      else Except.ok (pyBatches x y b)) = Except.ok (pyBatches x y b)
    rw [if_neg hb']
  · rw [pyBatches, List.length_map, List.length_range]
  · rw [pyBatches, List.map_map]
    refine List.eq_replicate_iff.mpr ⟨by rw [List.length_map, List.length_range], ?_⟩
    intro v hv
    rw [List.mem_map] at hv
    obtain ⟨i, hi, rfl⟩ := hv
    rw [List.mem_range] at hi
    show (((x.take (x.length / b * b)).drop (i * b)).take b).length = b
    rw [List.length_take, List.length_drop, hxlen]
    have := hslice i hi
    omega
  · rw [pyBatches, List.map_map]
    refine List.eq_replicate_iff.mpr ⟨by rw [List.length_map, List.length_range], ?_⟩
    intro v hv
    rw [List.mem_map] at hv
    obtain ⟨i, hi, rfl⟩ := hv
    rw [List.mem_range] at hi
    show (((y.take (x.length / b * b)).drop (i * b)).take b).length = b
    rw [List.length_take, List.length_drop, hylen]
    have := hslice i hi
    omega
  · rw [pyBatches, List.map_map]
    show ((List.range (x.length / b)).map
      (fun i => ((x.take (x.length / b * b)).drop (i * b)).take b)).flatten = _
    rw [flatten_batch_slices b (x.length / b) (x.take (x.length / b * b)),
      List.take_take, Nat.min_self]
  · rw [pyBatches, List.map_map]
    show (((List.range (x.length / b)).map
      (fun i => ((x.take (x.length / b * b)).drop (i * b)).take b)).flatten).length = _
    rw [flatten_batch_slices b (x.length / b) (x.take (x.length / b * b)),
      List.take_take, Nat.min_self]
    exact hxlen

/-- Witness for `get_batches_complete`: batch size 3 over 7 rows yields
exactly 2 batches of 3 rows; the rows yielded are the first 6, so the 7th
row (70) is never yielded. -/
theorem get_batches_complete_witness :
    runBatches (get_batches [10, 20, 30, 40, 50, 60, 70] [1, 1, 1, 0, 0, 0, 1] 3) =
      Except.ok (pyBatches [10, 20, 30, 40, 50, 60, 70] [1, 1, 1, 0, 0, 0, 1] 3) ∧
    (pyBatches [10, 20, 30, 40, 50, 60, 70] [1, 1, 1, 0, 0, 0, 1] 3).length = 2 ∧
    (pyBatches [10, 20, 30, 40, 50, 60, 70] [1, 1, 1, 0, 0, 0, 1] 3).map
      (fun p => p.1.length) = List.replicate 2 3 ∧
    (pyBatches [10, 20, 30, 40, 50, 60, 70] [1, 1, 1, 0, 0, 0, 1] 3).map
      (fun p => p.2.length) = List.replicate 2 3 ∧
    ((pyBatches [10, 20, 30, 40, 50, 60, 70] [1, 1, 1, 0, 0, 0, 1] 3).map
      Prod.fst).flatten = [10, 20, 30, 40, 50, 60] ∧
    (((pyBatches [10, 20, 30, 40, 50, 60, 70] [1, 1, 1, 0, 0, 0, 1] 3).map
      Prod.fst).flatten).length = 6 :=
  get_batches_complete [10, 20, 30, 40, 50, 60, 70] [1, 1, 1, 0, 0, 0, 1] 3
    (by decide) (by decide)

/-- Claim C10: with `0 < n < batch_size` the iterator runs to completion
yielding no batch at all, while with batch size 0 the very first statement
of the body, `n_batches = len(x)//batch_size`, raises `ZeroDivisionError`. -/
theorem undersized_input_yields_no_batches {α β : Type} (x : List α)
    (y : List β) (b : Nat) (h1 : 0 < x.length) (h2 : x.length < b) :
    runBatches (get_batches x y b) = Except.ok [] ∧
    runBatches (get_batches x y 0) = Except.error "ZeroDivisionError" := by
  constructor
  · have hb : ¬ ((get_batches x y b).batch_size = 0) := by
      show ¬ (b = 0)
      omega
    rw [runBatches, if_neg hb]
    have hdiv : x.length / b = 0 := Nat.div_eq_of_lt h2
    rw [pyBatches]
    show Except.ok ((List.range (x.length / b)).map _) = _
    rw [hdiv]
    rfl
  · rfl

/-- Witness for `undersized_input_yields_no_batches`: one row with batch
size 2 yields zero batches without error; batch size 0 errors at once. -/
theorem undersized_input_yields_no_batches_witness :
    runBatches (get_batches [5] [7] 2) = Except.ok [] ∧
    runBatches (get_batches [5] [7] 0) = Except.error "ZeroDivisionError" :=
  undersized_input_yields_no_batches [5] [7] 2 (by decide) (by decide)

/-- Claim C7, counterexample to eager rejection: constructing the
generator with the invalid batch size 0 succeeds and stores the invalid
value — nothing is rejected at construction — and the `ZeroDivisionError`
surfaces only when the body first runs. -/
theorem batch_size_zero_accepted_at_construction :
    (get_batches ([1, 2, 3] : List Nat) ([1, 0, 1] : List Nat) 0).batch_size
      = 0 ∧
    runBatches (get_batches ([1, 2, 3] : List Nat) ([1, 0, 1] : List Nat) 0) =
      Except.error "ZeroDivisionError" :=
  ⟨rfl, rfl⟩

/-- Claim C7 amended: the notebook performs no eager configuration
validation at all.  The target length is the hard-coded constant
`seq_len = 200` and is never checked; `get_batches` stores its arguments
unchecked (constructing the generator runs none of the body), and an
invalid batch size 0 only fails when the first batch is requested, via
`ZeroDivisionError` from `len(x)//batch_size`. -/
theorem no_eager_config_validation :
    seq_len = 200 ∧
    (∀ (x y : List Nat) (b : Nat), get_batches x y b = Gen.mk x y b) ∧
    (∀ (x y : List Nat), runBatches (get_batches x y 0) =
      Except.error "ZeroDivisionError") :=
  ⟨rfl, fun _ _ _ => rfl, fun _ _ => rfl⟩

/-- Claim C9: the label encoder maps exactly the string "positive" to 1
and every other string — "negative", the empty field a trailing newline
produces, or anything malformed — to 0, and its value is always in
\x7b0, 1\x7d. -/
theorem label_encoder_spec (s : String) :
    labelEncode "positive" = 1 ∧
    (s ≠ "positive" → labelEncode s = 0) ∧
    (labelEncode s = 0 ∨ labelEncode s = 1) := by
  refine ⟨by decide, ?_, ?_⟩
  · intro h
    rw [labelEncode, if_neg h]
  · by_cases h : s = "positive"
    · right
      rw [labelEncode, if_pos h]
    · left
      rw [labelEncode, if_neg h]

/-- Witness for `label_encoder_spec` at the empty string, the field a
trailing newline in the labels file produces. -/
theorem label_encoder_spec_witness :
    ("" : String) ≠ "positive" ∧ labelEncode "" = 0 :=
  ⟨by decide, (label_encoder_spec "").2.1 (by decide)⟩

/-- Claim C5: the vocabulary builder gives each distinct token exactly one
id; the keys of `vocab_to_int` are exactly the distinct tokens, each
occurring once, the assigned ids are exactly `1, 2, ..., V` where `V` is
the number of distinct tokens, and id 0 is never assigned. -/
theorem vocab_bijection (words : List String) :
    List.Perm ((vocab_to_int words).map Prod.fst) (distinctTokens words) ∧
    (distinctTokens words).Nodup ∧
    ((vocab_to_int words).map Prod.fst).Nodup ∧
    (vocab_to_int words).map Prod.snd =
      List.range' 1 (distinctTokens words).length ∧
    0 ∉ (vocab_to_int words).map Prod.snd := by
  have hperm := vocab_perm words
  have hfst : (vocab_to_int words).map Prod.fst = vocab words :=
    map_fst_assignIds _ 0
  have hsnd : (vocab_to_int words).map Prod.snd =
      List.range' 1 (vocab words).length := map_snd_assignIds _ 0
  refine ⟨?_, nodup_distinctTokens words, ?_, ?_, ?_⟩
  · rw [hfst]
    exact hperm
  · rw [hfst]
    exact hperm.nodup_iff.mpr (nodup_distinctTokens words)
  · rw [hsnd, hperm.length_eq]
  · rw [hsnd]
    intro hmem
    have h0 := List.mem_range'_1.mp hmem
    omega

/-- Claim C6: the id assignment is monotone in frequency — a token with a
strictly larger count in the flat token stream receives a strictly smaller
id than one with a smaller count. -/
theorem vocab_freq_monotone (words : List String) (t1 t2 : String)
    (h1 : t1 ∈ distinctTokens words) (h2 : t2 ∈ distinctTokens words)
    (hc : counts words t2 < counts words t1) :
    (vocab_to_int words).lookup t1 =
      some (List.indexOf t1 (vocab words) + 1) ∧
    (vocab_to_int words).lookup t2 =
      some (List.indexOf t2 (vocab words) + 1) ∧
    List.indexOf t1 (vocab words) + 1 < List.indexOf t2 (vocab words) + 1 := by
  have hperm := vocab_perm words
  have hm1 : t1 ∈ vocab words := hperm.mem_iff.mpr h1
  have hm2 : t2 ∈ vocab words := hperm.mem_iff.mpr h2
  have hl1 := lookup_assignIds (vocab words) 0 hm1
  have hl2 := lookup_assignIds (vocab words) 0 hm2
  simp only [Nat.zero_add] at hl1 hl2
  refine ⟨hl1, hl2, ?_⟩
  have hi1 : List.indexOf t1 (vocab words) < (vocab words).length :=
    List.indexOf_lt_length.mpr hm1
  have hi2 : List.indexOf t2 (vocab words) < (vocab words).length :=
    List.indexOf_lt_length.mpr hm2
  have hne : t1 ≠ t2 := by
    intro e
    rw [e] at hc
    exact lt_irrefl _ hc
  by_contra hlt
  have hle : List.indexOf t2 (vocab words) ≤ List.indexOf t1 (vocab words) := by
    omega
  rcases lt_or_eq_of_le hle with hlt2 | heq
  · have hp := (List.pairwise_iff_get.mp (vocab_sorted words))
      ⟨List.indexOf t2 (vocab words), hi2⟩
      ⟨List.indexOf t1 (vocab words), hi1⟩ hlt2
    rw [List.indexOf_get hi1, List.indexOf_get hi2] at hp
    omega
  · exact hne ((List.indexOf_inj hm1 hm2).mp heq.symm)

/-- Witness for `vocab_freq_monotone`: in the stream b a b the token b
occurs twice and a once, so b gets a strictly smaller id than a. -/
theorem vocab_freq_monotone_witness :
    (vocab_to_int ["b", "a", "b"]).lookup "b" =
      some (List.indexOf "b" (vocab ["b", "a", "b"]) + 1) ∧
    (vocab_to_int ["b", "a", "b"]).lookup "a" =
      some (List.indexOf "a" (vocab ["b", "a", "b"]) + 1) ∧
    List.indexOf "b" (vocab ["b", "a", "b"]) + 1 <
      List.indexOf "a" (vocab ["b", "a", "b"]) + 1 :=
  vocab_freq_monotone ["b", "a", "b"] "b" "a" (by decide) (by decide)
    (by decide)

/-- Claim C8: encoding a review containing a word absent from the
vocabulary mapping fails (the dict lookup raises `KeyError`, modelled as
`none`); no defaulted encoding is ever produced for such a review. -/
theorem oov_lookup_fails (vti : List (String × Nat)) (each : List String)
    (w : String) (hmem : w ∈ each) (hnone : vti.lookup w = none) :
    encodeReview vti each = none := by
  induction each with
  | nil => cases hmem
  | cons a tl ih =>
    rcases List.mem_cons.mp hmem with rfl | hmem2
    · rw [encodeReview, List.mapM_cons]
      simp [hnone]
    · have htl : encodeReview vti tl = none := ih hmem2
      rw [encodeReview] at htl
      rw [encodeReview, List.mapM_cons]
      cases h : vti.lookup a with
      | none => simp
      | some v =>
        show (mapM (fun word => List.lookup word vti) tl >>=
          fun bs => pure (v :: bs)) = none
        rw [htl]
        rfl

/-- Witness for `oov_lookup_fails`: the vocabulary knows only good, so
encoding the review good movie fails rather than defaulting. -/
theorem oov_lookup_fails_witness :
    encodeReview [("good", 1)] ["good", "movie"] = none :=
  oov_lookup_fails [("good", 1)] ["good", "movie"] "movie" (by decide)
    (by decide)

end SentimentRNN
